import Mathlib

/-!
Verification of the Clay-analysis dashboard core logic: a shallow embedding
of the enrichment and filtering code in `src/utils/data_processor.py` and
`src/utils/interactive_manager.py`, with theorems settling the behavioural
claims about it.

Modelling conventions:
* a dataframe cell that may be missing (pandas `NaN`) is an `Option String`;
* a dataframe row is an association list from column name to cell value and a
  dataframe is a list of rows;
* the session filter dictionary (`st.session_state.filters`) is an
  association list with Python-dict update/delete semantics;
* Python string operations are modelled on ASCII text (the repository's data
  is ASCII): `str.lower` maps only `A`–`Z`, and the regex class `\s` is the
  six ASCII whitespace characters.
-/

namespace ClayAnalysis

/-! ### Character helpers (ASCII models of Python predicates) -/

/-- The six ASCII characters matched by the Python regex class `\s`. -/
def pyIsSpace (c : Char) : Bool :=
  c = ' ' || c = '\t' || c = '\n' || c = '\r' || c = Char.ofNat 11 || c = Char.ofNat 12

/-- The regex character range `[A-Z]`. -/
def isUpperAZ (c : Char) : Bool :=
  'A' ≤ c && c ≤ 'Z'

/-- The regex character class `[A-Za-z\s]`. -/
def isStateClassChar (c : Char) : Bool :=
  ('A' ≤ c && c ≤ 'Z') || ('a' ≤ c && c ≤ 'z') || pyIsSpace c

/-- ASCII model of Python `str.lower` on a single character. -/
def pyToLower (c : Char) : Char :=
  if 'A' ≤ c && c ≤ 'Z' then Char.ofNat (c.toNat + 32) else c

/-- ASCII model of Python `str.lower`. -/
def strLower (s : String) : String :=
  String.mk (s.toList.map pyToLower)

/-- Model of the Python substring test `w in s` on character lists. -/
def containsSub (w : List Char) : List Char → Bool
  | [] => w.isEmpty
  | c :: t => List.isPrefixOf w (c :: t) || containsSub w t

/-- Model of the Python substring test `w in s` on strings. -/
def strContainsStr (s w : String) : Bool :=
  containsSub w.toList s.toList

/-! ### The `State` extraction regex

`data_processor.py` lines 26 and 57 compute
`df['Location'].str.extract(r',\s*([A-Z]{2}|[A-Za-z\s]+)$')`.
`str.extract` returns the capture group of the first `re.search` match, or a
missing value when there is no match.  The model below implements exactly
this pattern: `reSearchComma` scans for the leftmost position at which the
whole pattern matches; after a `,` the greedy `\s*` and the anchored
alternation `([A-Z]{2}|[A-Za-z\s]+)$` are tried with backtracking
(`wsBacktrack` tries the number of consumed whitespace characters from the
largest possible value down to zero). -/

/-- The anchored alternation `([A-Z]{2}|[A-Za-z\s]+)$` applied to the rest of
the string: the group must extend to the end of the input. -/
def altGroup (u : List Char) : Option (List Char) :=
  if u.length == 2 && u.all isUpperAZ then some u
  else if !u.isEmpty && u.all isStateClassChar then some u
  else none

/-- Backtracking for the greedy `\s*`: try consuming `j` whitespace
characters for `j = k, k-1, …, 0` and run the alternation on the rest. -/
def wsBacktrack : Nat → List Char → Option (List Char)
  | 0, t => altGroup t
  | j + 1, t =>
    if (t.take (j + 1)).all pyIsSpace then
      match altGroup (t.drop (j + 1)) with
      | some g => some g
      | none => wsBacktrack j t
    else wsBacktrack j t

/-- Match `\s*([A-Z]{2}|[A-Za-z\s]+)$` against the text following a comma. -/
def matchFromComma (t : List Char) : Option (List Char) :=
  wsBacktrack t.length t

/-- `re.search` for the full pattern: scan positions left to right; at each
comma try to complete the match on the remaining text. -/
def reSearchComma : List Char → Option (List Char)
  | [] => none
  | c :: rest =>
    if c = ',' then
      match matchFromComma rest with
      | some g => some g
      | none => reSearchComma rest
    else reSearchComma rest

/-- `Series.str.extract` of the pattern on one cell: a missing cell stays
missing, and a non-matching cell becomes missing. -/
def extractState (loc : Option String) : Option String :=
  loc.bind (fun s => (reSearchComma s.toList).map (fun g => String.mk g))

/-- `Series.fillna('Unknown')` on one cell. -/
def fillna (o : Option String) : Option String :=
  some (o.getD "Unknown")

/-- The `State` cell computed by `preprocess_companies` (lines 26–27): the
regex is applied to the raw `Location` cell, then missing results are filled
with `"Unknown"`. -/
def companyStateColumn (loc : Option String) : Option String :=
  fillna (extractState loc)

/-- The `State` cell computed by `preprocess_decision_makers` (lines 54,
57–58): `Location` is first filled with `"Unknown"`, then the same regex
extraction and fill are applied. -/
def dmStateColumn (loc : Option String) : Option String :=
  fillna (extractState (fillna loc))

/-! ### Seniority classification (`DataProcessor._get_seniority_level`) -/

/-- `_get_seniority_level` (lines 99–109): lower-case the title and test
keyword substrings tier by tier, first match wins. -/
def getSeniorityLevel (title : String) : String :=
  let t := strLower title
  if ["ceo", "president", "founder", "owner", "principal"].any
      (fun w => strContainsStr t w) then "C-Level/Principal"
  else if ["vp", "vice president", "director", "head"].any
      (fun w => strContainsStr t w) then "VP/Director"
  else if ["manager", "lead", "senior"].any
      (fun w => strContainsStr t w) then "Manager/Senior"
  else "Other"

/-- `_extract_country` (lines 111–124). -/
def extractCountry (loc : Option String) : String :=
  match loc with
  | none => "Unknown"
  | some l =>
    if l = "Unknown" then "Unknown"
    else if strContainsStr l "United States" then "United States"
    else if strContainsStr l "Canada" then "Canada"
    else if strContainsStr l "United Kingdom" then "United Kingdom"
    else if strContainsStr l "India" then "India"
    else "Other"

/-! ### Dataframes and the session filter dictionary

A row is an association list from column name to cell value; a missing cell
(`NaN`) is simply an absent key or is represented at the call site by the
`Option` in each cell accessor.  A dataframe is a list of rows.  The filter
state is an association list with Python-dict semantics: assignment updates
the existing entry in place, otherwise appends; deletion removes the entry.
Dictionaries built by the dashboard always have pairwise-distinct keys. -/

/-- Rows map column names to string cell values. -/
abbrev Row : Type := List (String × String)

/-- A dataframe is a list of rows. -/
abbrev Df : Type := List Row

/-- Dictionary lookup (`d[k]` guarded by `k in d`, or `.get`). -/
def dictGet (d : List (String × String)) (k : String) : Option String :=
  (d.find? (fun p => p.1 == k)).map (fun p => p.2)

/-- Python dict assignment `d[k] = v`: replace the entry for `k` in place if
present, otherwise append. -/
def dictSet : List (String × String) → String → String → List (String × String)
  | [], k, v => [(k, v)]
  | p :: rest, k, v => if p.1 = k then (k, v) :: rest else p :: dictSet rest k v

/-- Python dict deletion `del d[k]` (no-op when the key is absent, matching
the membership guard in `remove_filter`).  Dictionary states have pairwise
distinct keys, so dropping every pair with key `k` coincides with deleting
the single entry. -/
def dictDel (d : List (String × String)) (k : String) : List (String × String) :=
  d.filter (fun p => !(p.1 == k))

/-! ### `InteractiveManager` filter operations -/

/-- `add_filter` (lines 30–32): `st.session_state.filters[name] = value`. -/
def addFilter (fs : List (String × String)) (name value : String) :
    List (String × String) :=
  dictSet fs name value

/-- `remove_filter` (lines 34–37). -/
def removeFilter (fs : List (String × String)) (name : String) :
    List (String × String) :=
  dictDel fs name

/-- The selection handling of `create_manual_filter_controls` (lines 73–77):
selecting `"All"` removes the filter, any other selection stores it. -/
def manualFilterUpdate (fs : List (String × String)) (name selected : String) :
    List (String × String) :=
  if selected = "All" then removeFilter fs name else addFilter fs name selected

/-- `apply_filters_to_dataframe` (lines 52–62): iterate over the
name→column config; for each config entry whose filter name is present in
the session filters with a truthy value other than `"All"`, keep only the
rows whose cell in the mapped column equals the filter value.  A pandas cell
that is `NaN` never equals a string filter value, which the row-level
`dictGet … == some v` test reproduces. -/
def applyFiltersStep (fs : List (String × String)) (acc : Df)
    (p : String × String) : Df :=
  match dictGet fs p.1 with
  | some v =>
    if v != "" && v != "All" then
      acc.filter (fun r => dictGet r p.2 == some v)
    else acc
  | none => acc

/-- The loop of `apply_filters_to_dataframe`: fold the step over the
name→column config entries, starting from (a copy of) the input table. -/
def applyFiltersToDataframe (fs : List (String × String)) (df : Df)
    (filterConfig : List (String × String)) : Df :=
  filterConfig.foldl (applyFiltersStep fs) df

/-! ### `create_cross_filter_dashboard` (lines 202–254)

Only the data selection feeding each chart is modelled (lines 207–216): per
chart configuration the dashboard looks up `data_dict[data_key]` and applies
`apply_filters_to_dataframe` with that chart's own `filters` config.  A
missing `data_key` raises a `KeyError` in Python, modelled by the whole
computation returning `none`. -/

/-- The per-chart fields that determine the rows feeding a chart. -/
structure ChartConfig where
  dataKey : String
  filters : List (String × String)

/-- The filtered dataframe backing each chart of the cross-filter
dashboard, in chart order. -/
def createCrossFilterData (fs : List (String × String))
    (dataDict : List (String × Df)) : List ChartConfig → Option (List Df)
  | [] => some []
  | cfg :: rest =>
    match (dataDict.find? (fun p => p.1 == cfg.dataKey)).map (fun p => p.2) with
    | none => none
    | some df =>
      match createCrossFilterData fs dataDict rest with
      | none => none
      | some tables => some (applyFiltersToDataframe fs df cfg.filters :: tables)

/-! ### Preprocessing pipelines (`DataProcessor`) -/

/-- Raw companies columns used by `preprocess_companies`. -/
structure CompanyRaw where
  name : Option String
  location : Option String
  primaryIndustry : Option String
  size : Option String
  companyType : Option String
  country : Option String
  linkedinURL : Option String
  domain : Option String

/-- Enriched companies columns after `preprocess_companies`. -/
structure CompanyEnriched where
  name : Option String
  location : Option String
  state : Option String
  primaryIndustry : Option String
  size : Option String
  companyType : Option String
  country : Option String
  hasLinkedIn : Bool
  hasDomain : Bool

/-- `preprocess_companies` (lines 18–45).  Note that the raw `Location`
column itself is not filled; only the derived `State` is. -/
def preprocessCompanies (r : CompanyRaw) : CompanyEnriched :=
  { name := fillna r.name
  , location := r.location
  , state := companyStateColumn r.location
  , primaryIndustry := fillna r.primaryIndustry
  , size := fillna r.size
  , companyType := fillna r.companyType
  , country := fillna r.country
  , hasLinkedIn := r.linkedinURL.isSome
  , hasDomain := r.domain.isSome }

/-- Raw decision-makers columns used by `preprocess_decision_makers`. -/
structure DMRaw where
  fullName : Option String
  jobTitle : Option String
  location : Option String
  companyTableData : Option String

/-- Enriched decision-makers columns after `preprocess_decision_makers`. -/
structure DMEnriched where
  fullName : Option String
  jobTitle : Option String
  location : Option String
  state : Option String
  company : Option String
  seniority : Option String
  country : Option String

/-- `preprocess_decision_makers` (lines 47–69). -/
def preprocessDecisionMakers (r : DMRaw) : DMEnriched :=
  { fullName := fillna r.fullName
  , jobTitle := fillna r.jobTitle
  , location := fillna r.location
  , state := dmStateColumn r.location
  , company := fillna r.companyTableData
  , seniority := (fillna r.jobTitle).map getSeniorityLevel
  , country := some (extractCountry (fillna r.location)) }

/-- Raw jobs columns used by `preprocess_jobs`. -/
structure JobRaw where
  jobTitle : Option String
  location : Option String
  companyName : Option String
  postOn : Option String

/-- Enriched jobs columns after `preprocess_jobs` (the chart-only `Post
Date`/`Post Month` projections of the parsed timestamp are not modelled). -/
structure JobEnriched where
  jobTitle : Option String
  location : Option String
  companyName : Option String
  postOn : Option Int
  daysSincePosted : Option Int

/-- The `Days Since Posted` cell (lines 87–95): when the timezone
normalization of the batch succeeds (`tzOk = true`), a parsed timestamp `t`
yields the whole-day floor of `now - t` and an unparsed date stays missing;
when it raises (`tzOk = false`), the `except` branch leaves the whole column
missing.  Timestamps are seconds, so a day is 86400 and `Timedelta.days` is
flooring integer division. -/
def daysSincePostedCell (parse : String → Option Int) (tzOk : Bool)
    (now : Int) (rawPostOn : Option String) : Option Int :=
  if tzOk then
    match rawPostOn.bind parse with
    | some t => some ((now - t).fdiv 86400)
    | none => none
  else none

/-- `preprocess_jobs` (lines 71–97), parameterized by the
`pd.to_datetime(…, errors='coerce')` parser (unparseable dates become
missing), the success of the timezone normalization, and the fixed reference
`pd.Timestamp.now()`. -/
def preprocessJobs (parse : String → Option Int) (tzOk : Bool) (now : Int)
    (r : JobRaw) : JobEnriched :=
  { jobTitle := fillna r.jobTitle
  , location := fillna r.location
  , companyName := fillna r.companyName
  , postOn := r.postOn.bind parse
  , daysSincePosted := daysSincePostedCell parse tzOk now r.postOn }

/-! ### Loader (`load_data_files`, lines 158–168) -/

/-- `load_data_files`: the three `pd.read_csv` calls run inside one `try`;
any raised error sends the whole call to the `except` branch which returns
`(None, None, None)`.  Each read outcome is an `Except`. -/
def loadDataFiles (r₁ r₂ r₃ : Except String Df) :
    Option Df × Option Df × Option Df :=
  match r₁, r₂, r₃ with
  | Except.ok a, Except.ok b, Except.ok c => (some a, some b, some c)
  | _, _, _ => (none, none, none)

/-! ### Specification-side definitions

These definitions transcribe the words of spec sentences (they are compared
against the code embedding above; they are not translations of the source).
-/

/-- Strip leading and trailing whitespace from a character list. -/
def trimListWs (l : List Char) : List Char :=
  ((l.dropWhile pyIsSpace).reverse.dropWhile pyIsSpace).reverse

/-- The text strictly after the last comma of a character list, when a comma
is present. -/
def afterLastComma : List Char → Option (List Char)
  | [] => none
  | c :: t =>
    match afterLastComma t with
    | some r => some r
    | none => if c = ',' then some t else none

/-- Region as the spec sentence words it: the trailing comma-delimited token
trimmed of whitespace, or `"Unknown"` when the location has no comma or is
missing. -/
def claimRegionSpec (loc : Option String) : String :=
  match loc with
  | none => "Unknown"
  | some s =>
    match afterLastComma s.toList with
    | none => "Unknown"
    | some t => String.mk (trimListWs t)

/-- The region value the code actually stores (the filled `State` cell of
`preprocess_companies` as a plain string). -/
def regionCompanies (loc : Option String) : String :=
  (extractState loc).getD "Unknown"

/-- Number of leading whitespace characters of a character list. -/
def leadingWs : List Char → Nat
  | [] => 0
  | c :: t => if pyIsSpace c then leadingWs t + 1 else 0

/-- The token the regex actually extracts from the text `t` after the last
comma: skip the leading whitespace, then the remainder must be exactly two
uppercase ASCII letters or a nonempty run of ASCII letters and whitespace
(kept verbatim, so trailing whitespace survives); when the remainder is
empty but some whitespace was skipped, the token degenerates to the last
whitespace character. -/
def amendedRegionCore (t : List Char) : Option (List Char) :=
  let m := leadingWs t
  match altGroup (t.drop m) with
  | some g => some g
  | none =>
    if (t.drop m).isEmpty && decide (1 ≤ m) then some (t.drop (m - 1)) else none

/-- The amended region function: apply `amendedRegionCore` to the text after
the last comma, defaulting to `"Unknown"`. -/
def amendedRegion (loc : Option String) : String :=
  match loc with
  | none => "Unknown"
  | some s =>
    match afterLastComma s.toList with
    | none => "Unknown"
    | some t =>
      match amendedRegionCore t with
      | some g => String.mk g
      | none => "Unknown"

/-- The decision-makers table restricted as claim C1 words it: keep the rows
whose `Company` value equals, case-insensitively and exactly, the `Name` of
some company row that survives the active filters on the companies table. -/
def claimRestrictedDM (fs : List (String × String)) (companies dm : Df)
    (companyCfg : List (String × String)) : Df :=
  dm.filter (fun r =>
    (applyFiltersToDataframe fs companies companyCfg).any (fun c =>
      match dictGet c "Name", dictGet r "Company" with
      | some n, some co => strLower n == strLower co
      | _, _ => false))

/-- The row predicate equivalent to one pass of the `apply_filters_to_dataframe`
loop body for one config entry. -/
def keepRow (fs : List (String × String)) (p : String × String) (r : Row) : Bool :=
  match dictGet fs p.1 with
  | some v => if v != "" && v != "All" then dictGet r p.2 == some v else true
  | none => true

/-! ## Theorems -/

/-! ### Association-list dictionary lemmas -/

theorem dictGet_cons (p : String × String) (d : List (String × String))
    (k : String) :
    dictGet (p :: d) k = if p.1 == k then some p.2 else dictGet d k := by
  unfold dictGet
  cases hp : (p.1 == k) with
  | true => simp [List.find?_cons_of_pos, hp]
  | false =>
    have hp' : ¬ ((fun q : String × String => q.1 == k) p = true) := by
      simp [hp]
    simp [List.find?_cons_of_neg _ hp', hp]

theorem dictDel_cons (p : String × String) (rest : List (String × String))
    (k : String) :
    dictDel (p :: rest) k =
      if p.1 == k then dictDel rest k else p :: dictDel rest k := by
  unfold dictDel
  rw [List.filter_cons]
  cases hp : (p.1 == k) with
  | true => simp
  | false => simp

theorem dictGet_del_self (fs : List (String × String)) (k : String) :
    dictGet (dictDel fs k) k = none := by
  induction fs with
  | nil => rfl
  | cons p rest ih =>
    rw [dictDel_cons]
    cases hp : (p.1 == k) with
    | true => simpa using ih
    | false => simp [dictGet_cons, hp, ih]

theorem dictGet_del_ne (fs : List (String × String)) (k k' : String)
    (h : k' ≠ k) : dictGet (dictDel fs k) k' = dictGet fs k' := by
  induction fs with
  | nil => rfl
  | cons p rest ih =>
    rw [dictDel_cons]
    cases hp : (p.1 == k) with
    | true =>
      have h2 : (p.1 == k') = false := by
        rw [beq_iff_eq.mp hp]
        exact beq_eq_false_iff_ne.mpr (fun hh => h (Eq.symm hh))
      simp [dictGet_cons, h2, ih]
    | false => simp [dictGet_cons, ih]

theorem dictGet_set_self (fs : List (String × String)) (k v : String) :
    dictGet (dictSet fs k v) k = some v := by
  induction fs with
  | nil => simp [dictSet, dictGet_cons]
  | cons p rest ih =>
    unfold dictSet
    by_cases h : p.1 = k
    · rw [if_pos h, dictGet_cons]
      simp
    · rw [if_neg h, dictGet_cons, beq_eq_false_iff_ne.mpr h]
      simpa using ih

theorem dictGet_set_ne (fs : List (String × String)) (k k' v : String)
    (h : k' ≠ k) : dictGet (dictSet fs k v) k' = dictGet fs k' := by
  have hk : (k == k') = false :=
    beq_eq_false_iff_ne.mpr (fun hh => h (Eq.symm hh))
  induction fs with
  | nil =>
    unfold dictSet
    rw [dictGet_cons, hk]
    simp
  | cons p rest ih =>
    unfold dictSet
    by_cases hp : p.1 = k
    · rw [if_pos hp, dictGet_cons, hk, dictGet_cons, hp, hk]
      simp
    · rw [if_neg hp, dictGet_cons, dictGet_cons, ih]

/-! ### Filter-engine characterization lemmas -/

theorem applyFilters_step (fs : List (String × String)) (df : Df)
    (p : String × String) :
    applyFiltersStep fs df p = df.filter (keepRow fs p) := by
  unfold applyFiltersStep keepRow
  cases hg : dictGet fs p.1 with
  | none => simp
  | some v =>
    cases hb : (v != "" && v != "All") with
    | false => simp [hb]
    | true => simp [hb]

theorem applyFilters_eq_filter (fs : List (String × String))
    (cfg : List (String × String)) : ∀ df : Df,
    applyFiltersToDataframe fs df cfg =
      df.filter (fun r => cfg.all (fun p => keepRow fs p r)) := by
  induction cfg with
  | nil =>
    intro df
    show df = df.filter (fun _ => true)
    simp
  | cons p rest ih =>
    intro df
    have hstep : applyFiltersToDataframe fs df (p :: rest) =
        applyFiltersToDataframe fs (applyFiltersStep fs df p) rest := rfl
    rw [hstep, applyFilters_step, ih, List.filter_filter]
    refine List.filter_congr (fun r _ => ?_)
    rw [List.all_cons, Bool.and_comm]

/-! ### Claim theorems -/

/-- C2: seniority classification is deterministic and total — for every
job-title string the classifier returns one of the four tiers, computed by
case-insensitive substring match with first-match-wins over the ordered
tiers; in particular `seniority "CEO" = "C-Level/Principal"`,
`seniority "Senior Manager" = "Manager/Senior"`, and
`seniority "Intern" = "Other"`. -/
theorem c2_seniority_total_and_examples :
    (∀ T : String, getSeniorityLevel T = "C-Level/Principal" ∨
        getSeniorityLevel T = "VP/Director" ∨
        getSeniorityLevel T = "Manager/Senior" ∨
        getSeniorityLevel T = "Other")
    ∧ getSeniorityLevel "CEO" = "C-Level/Principal"
    ∧ getSeniorityLevel "Senior Manager" = "Manager/Senior"
    ∧ getSeniorityLevel "Intern" = "Other" := by
  refine ⟨fun T => ?_, by decide, by decide, by decide⟩
  unfold getSeniorityLevel
  dsimp only
  split
  · exact Or.inl rfl
  · split
    · exact Or.inr (Or.inl rfl)
    · split
      · exact Or.inr (Or.inr (Or.inl rfl))
      · exact Or.inr (Or.inr (Or.inr rfl))

/-- C10: the companies pipeline and the decision-makers pipeline derive the
`State` column by the same function of the location string — for every
location string the two enriched `State` cells agree (companies extract from
the raw `Location`, decision makers from the filled `Location`, which is the
same value on a present string). -/
theorem c10_region_same_function :
    ∀ L : String, dmStateColumn (some L) = companyStateColumn (some L) :=
  fun _ => rfl

/-- C4: null-free enrichment invariant — for every raw row of each entity
kind, every string field used downstream for grouping or filtering is
non-missing in the enriched row (companies: Name, State, Primary Industry,
Size, Type, Country; decision makers: Full Name, Job Title, Location, State,
Company, Country; jobs: Job Title, Location, Company Name), missing values
having been replaced by the sentinel `"Unknown"`. -/
theorem c4_nullfree_enrichment :
    ∀ (c : CompanyRaw) (d : DMRaw) (parse : String → Option Int)
      (tzOk : Bool) (now : Int) (j : JobRaw),
      ((preprocessCompanies c).name.isSome = true
        ∧ (preprocessCompanies c).state.isSome = true
        ∧ (preprocessCompanies c).primaryIndustry.isSome = true
        ∧ (preprocessCompanies c).size.isSome = true
        ∧ (preprocessCompanies c).companyType.isSome = true
        ∧ (preprocessCompanies c).country.isSome = true)
      ∧ ((preprocessDecisionMakers d).fullName.isSome = true
        ∧ (preprocessDecisionMakers d).jobTitle.isSome = true
        ∧ (preprocessDecisionMakers d).location.isSome = true
        ∧ (preprocessDecisionMakers d).state.isSome = true
        ∧ (preprocessDecisionMakers d).company.isSome = true
        ∧ (preprocessDecisionMakers d).country.isSome = true)
      ∧ ((preprocessJobs parse tzOk now j).jobTitle.isSome = true
        ∧ (preprocessJobs parse tzOk now j).location.isSome = true
        ∧ (preprocessJobs parse tzOk now j).companyName.isSome = true) :=
  fun _ _ _ _ _ _ =>
    ⟨⟨rfl, rfl, rfl, rfl, rfl, rfl⟩, ⟨rfl, rfl, rfl, rfl, rfl, rfl⟩,
      rfl, rfl, rfl⟩

/-- C9: loader atomicity — `load_data_files` either returns all three raw
tables (when all three reads succeed) or returns no table at all; no run
surfaces a partial subset of the three tables. -/
theorem c9_loader_atomicity :
    ∀ r₁ r₂ r₃ : Except String Df,
      (∃ a b c, r₁ = Except.ok a ∧ r₂ = Except.ok b ∧ r₃ = Except.ok c ∧
        loadDataFiles r₁ r₂ r₃ = (some a, some b, some c))
      ∨ loadDataFiles r₁ r₂ r₃ = (none, none, none) := by
  intro r₁ r₂ r₃
  cases r₁ with
  | error e => exact Or.inr rfl
  | ok a =>
    cases r₂ with
    | error e => exact Or.inr rfl
    | ok b =>
      cases r₃ with
      | error e => exact Or.inr rfl
      | ok c => exact Or.inl ⟨a, b, c, rfl, rfl, rfl, rfl⟩

/-- C8: setFilter semantics — the manual-filter-control update with
`"All"` removes the entry for the filter name from the session state, any
other value maps the name to that value overwriting a prior value, and the
entries of other filter names are untouched. -/
theorem c8_setFilter_semantics (fs : List (String × String))
    (name value : String) :
    (value = "All" → dictGet (manualFilterUpdate fs name value) name = none)
    ∧ (value ≠ "All" →
        dictGet (manualFilterUpdate fs name value) name = some value)
    ∧ ∀ other, other ≠ name →
        dictGet (manualFilterUpdate fs name value) other = dictGet fs other := by
  refine ⟨fun hv => ?_, fun hv => ?_, fun other ho => ?_⟩
  · unfold manualFilterUpdate removeFilter
    rw [if_pos hv]
    exact dictGet_del_self fs name
  · unfold manualFilterUpdate addFilter
    rw [if_neg hv]
    exact dictGet_set_self fs name value
  · unfold manualFilterUpdate removeFilter addFilter
    by_cases hv : value = "All"
    · rw [if_pos hv]
      exact dictGet_del_ne fs name other ho
    · rw [if_neg hv]
      exact dictGet_set_ne fs name other value ho

/-- Witness for C8 at a concrete session state. -/
theorem c8_setFilter_witness :
    dictGet (manualFilterUpdate [("Industry", "Tech"), ("Size", "11-50")]
      "Industry" "All") "Industry" = none
    ∧ dictGet (manualFilterUpdate [("Industry", "Tech"), ("Size", "11-50")]
      "Industry" "Retail") "Industry" = some "Retail"
    ∧ dictGet (manualFilterUpdate [("Industry", "Tech"), ("Size", "11-50")]
      "Industry" "Retail") "Size" =
        dictGet [("Industry", "Tech"), ("Size", "11-50")] "Size" :=
  ⟨(c8_setFilter_semantics _ "Industry" "All").1 rfl,
   (c8_setFilter_semantics _ "Industry" "Retail").2.1 (by decide),
   (c8_setFilter_semantics _ "Industry" "Retail").2.2 "Size" (by decide)⟩

/-- C5: applyFilters semantics — under the session-state invariant that
active filter values are never the `"All"` sentinel nor empty (the only
states reachable through the manual filter controls), the result contains
exactly the input rows satisfying, for every config entry whose filter name
is active, equality of the mapped column with the filter value (logical
AND); and when no active filter name occurs in the config, the table is
returned unchanged. -/
theorem c5_applyFilters_semantics (df : Df) (cfg fs : List (String × String))
    (hfs : ∀ q ∈ fs, q.2 ≠ "All" ∧ q.2 ≠ "") :
    (∀ r : Row, r ∈ applyFiltersToDataframe fs df cfg ↔
        r ∈ df ∧ ∀ p ∈ cfg, ∀ v, dictGet fs p.1 = some v →
          dictGet r p.2 = some v)
    ∧ ((∀ p ∈ cfg, dictGet fs p.1 = none) →
        applyFiltersToDataframe fs df cfg = df) := by
  have hval : ∀ n v, dictGet fs n = some v → v ≠ "All" ∧ v ≠ "" := by
    intro n v hg
    unfold dictGet at hg
    cases hfind : fs.find? (fun p => p.1 == n) with
    | none => rw [hfind] at hg; simp at hg
    | some q =>
      rw [hfind] at hg
      simp at hg
      have hq := hfs q (List.mem_of_find?_eq_some hfind)
      rw [hg] at hq
      exact hq
  have hkeep : ∀ (p : String × String) (r : Row),
      keepRow fs p r = true ↔
        (∀ v, dictGet fs p.1 = some v → dictGet r p.2 = some v) := by
    intro p r
    unfold keepRow
    cases hg : dictGet fs p.1 with
    | none => simp
    | some v =>
      have hv := hval p.1 v hg
      have hb : (v != "" && v != "All") = true := by
        rw [Bool.and_eq_true, bne_iff_ne, bne_iff_ne]
        exact ⟨hv.2, hv.1⟩
      simp [hb, beq_iff_eq]
  constructor
  · intro r
    rw [applyFilters_eq_filter, List.mem_filter]
    constructor
    · rintro ⟨hr, hall⟩
      exact ⟨hr, fun p hp v hv =>
        (hkeep p r).mp (List.all_eq_true.mp hall p hp) v hv⟩
    · rintro ⟨hr, hcond⟩
      exact ⟨hr, List.all_eq_true.mpr (fun p hp => (hkeep p r).mpr (hcond p hp))⟩
  · intro hnone
    rw [applyFilters_eq_filter]
    have hall : ∀ r ∈ df,
        (cfg.all (fun p => keepRow fs p r)) = (fun _ : Row => true) r := by
      intro r _
      refine List.all_eq_true.mpr (fun p hp => ?_)
      unfold keepRow
      rw [hnone p hp]
    rw [List.filter_congr hall]
    exact List.filter_true df

/-- Witness for C5: an active filter whose name is absent from the config
leaves a concrete two-row table unchanged. -/
theorem c5_applyFilters_witness :
    applyFiltersToDataframe [("Seniority", "VP/Director")]
        [[("Primary Industry", "Tech")], [("Primary Industry", "Retail")]]
        [("Industry", "Primary Industry")] =
      [[("Primary Industry", "Tech")], [("Primary Industry", "Retail")]] :=
  (c5_applyFilters_semantics
    [[("Primary Industry", "Tech")], [("Primary Industry", "Retail")]]
    [("Industry", "Primary Industry")] [("Seniority", "VP/Director")]
    (by decide)).2 (by decide)

/-- C6: applyFilters is idempotent; in this embedding the operation is a
pure function of the input table (the code filters a copy), so the input
table is unchanged by construction. -/
theorem c6_applyFilters_idempotent :
    ∀ (fs : List (String × String)) (df : Df) (cfg : List (String × String)),
      applyFiltersToDataframe fs (applyFiltersToDataframe fs df cfg) cfg =
        applyFiltersToDataframe fs df cfg := by
  intro fs df cfg
  rw [applyFilters_eq_filter, applyFilters_eq_filter, List.filter_filter]
  exact List.filter_congr (fun r _ => Bool.and_self _)

/-- C7: days-since-posted — with the batch timezone normalization
succeeding, a job row whose raw date parses to timestamp `t` gets the
whole-day difference between the fixed reference `now` and `t` (in
particular `5` when the timestamp is exactly five days earlier), a row whose
raw date does not parse gets no value at all (absent, not `0` or negative),
and when timezone normalization fails the field is absent for every row of
the batch. -/
theorem c7_days_since_posted :
    ∀ (parse : String → Option Int) (now : Int) (r : JobRaw)
      (s : String) (t : Int),
      (r.postOn = some s → parse s = some t →
        (preprocessJobs parse true now r).daysSincePosted =
          some ((now - t).fdiv 86400)
        ∧ (now - t = 5 * 86400 →
            (preprocessJobs parse true now r).daysSincePosted = some 5))
      ∧ (r.postOn.bind parse = none →
          (preprocessJobs parse true now r).daysSincePosted = none)
      ∧ (preprocessJobs parse false now r).daysSincePosted = none := by
  intro parse now r s t
  have hcell : ∀ tz : Bool, (preprocessJobs parse tz now r).daysSincePosted =
      daysSincePostedCell parse tz now r.postOn := fun _ => rfl
  refine ⟨fun hs hp => ?_, fun hn => ?_, by rw [hcell]; rfl⟩
  · have hb : r.postOn.bind parse = some t := by rw [hs]; exact hp
    have hsome : daysSincePostedCell parse true now r.postOn =
        some ((now - t).fdiv 86400) := by
      unfold daysSincePostedCell
      rw [hb]
      rfl
    refine ⟨by rw [hcell, hsome], fun h5 => ?_⟩
    rw [hcell, hsome, h5]
    decide
  · rw [hcell]
    unfold daysSincePostedCell
    rw [hn]
    rfl

/-- Witness for C7: a concrete parser and reference time with a date that
parses five days before `now`, one that does not parse, and a failing
timezone normalization. -/
theorem c7_days_since_posted_witness :
    (preprocessJobs (fun s => if s = "2024-06-01" then some 100 else none)
        true (100 + 5 * 86400)
        ⟨none, none, none, some "2024-06-01"⟩).daysSincePosted = some 5
    ∧ (preprocessJobs (fun s => if s = "2024-06-01" then some 100 else none)
        true (100 + 5 * 86400)
        ⟨none, none, none, some "not a date"⟩).daysSincePosted = none
    ∧ (preprocessJobs (fun s => if s = "2024-06-01" then some 100 else none)
        false (100 + 5 * 86400)
        ⟨none, none, none, some "2024-06-01"⟩).daysSincePosted = none :=
  ⟨((c7_days_since_posted _ (100 + 5 * 86400) ⟨none, none, none,
      some "2024-06-01"⟩ "2024-06-01" 100).1 rfl (by decide)).2 (by decide),
   (c7_days_since_posted _ (100 + 5 * 86400) ⟨none, none, none,
      some "not a date"⟩ "not a date" 100).2.1 (by decide),
   (c7_days_since_posted _ (100 + 5 * 86400) ⟨none, none, none,
      some "2024-06-01"⟩ "2024-06-01" 100).2.2⟩

/-- C1 counterexample: a session state with the Industry filter active, a
companies table whose surviving names are `Acme` and `Beta`, and a
decision-makers table with companies `acme`, `ACME` and `Beta Inc`.  The
claim says the decision-makers table is restricted to exactly the rows whose
company matches a surviving name case-insensitively (the `acme` and `ACME`
rows).  The code (`create_cross_filter_dashboard`) instead filters each
chart's table only by that chart's own filter config, so all three
decision-maker rows survive: the claimed restriction does not happen. -/
theorem c1_crossfilter_counterexample :
    createCrossFilterData [("Industry", "Construction")]
        [("companies",
          [[("Name", "Acme"), ("Primary Industry", "Construction")],
           [("Name", "Beta"), ("Primary Industry", "Construction")],
           [("Name", "Gamma"), ("Primary Industry", "Retail")]]),
         ("decision_makers",
          [[("Full Name", "P1"), ("Company", "acme")],
           [("Full Name", "P2"), ("Company", "ACME")],
           [("Full Name", "P3"), ("Company", "Beta Inc")]])]
        [⟨"companies", [("Industry", "Primary Industry")]⟩,
         ⟨"decision_makers", []⟩] =
      some [[[("Name", "Acme"), ("Primary Industry", "Construction")],
             [("Name", "Beta"), ("Primary Industry", "Construction")]],
            [[("Full Name", "P1"), ("Company", "acme")],
             [("Full Name", "P2"), ("Company", "ACME")],
             [("Full Name", "P3"), ("Company", "Beta Inc")]]]
    ∧ claimRestrictedDM [("Industry", "Construction")]
        [[("Name", "Acme"), ("Primary Industry", "Construction")],
         [("Name", "Beta"), ("Primary Industry", "Construction")],
         [("Name", "Gamma"), ("Primary Industry", "Retail")]]
        [[("Full Name", "P1"), ("Company", "acme")],
         [("Full Name", "P2"), ("Company", "ACME")],
         [("Full Name", "P3"), ("Company", "Beta Inc")]]
        [("Industry", "Primary Industry")] =
      [[("Full Name", "P1"), ("Company", "acme")],
       [("Full Name", "P2"), ("Company", "ACME")]]
    ∧ ([[("Full Name", "P1"), ("Company", "acme")],
        [("Full Name", "P2"), ("Company", "ACME")],
        [("Full Name", "P3"), ("Company", "Beta Inc")]] : Df) ≠
      [[("Full Name", "P1"), ("Company", "acme")],
       [("Full Name", "P2"), ("Company", "ACME")]] :=
  ⟨by decide, by decide, by decide⟩

/-- C1 amended: each chart of the cross-filter dashboard is filtered only by
its own per-chart filter config through exact (case-sensitive) equality on
its own table's columns; no company-name membership restriction links the
tables — the decision-makers chart data is independent of the companies
table, whatever filters are active. -/
theorem c1_crossfilter_amended :
    ∀ (fs cfgF : List (String × String)) (dm A B : Df),
      createCrossFilterData fs [("companies", A), ("decision_makers", dm)]
          [⟨"decision_makers", cfgF⟩] =
        createCrossFilterData fs [("companies", B), ("decision_makers", dm)]
          [⟨"decision_makers", cfgF⟩]
      ∧ createCrossFilterData fs [("companies", A), ("decision_makers", dm)]
          [⟨"decision_makers", cfgF⟩] =
        some [applyFiltersToDataframe fs dm cfgF] := by
  intro fs cfgF dm A B
  exact ⟨rfl, rfl⟩

/-! ### Regex analysis lemmas for the `State` extraction -/

theorem pyIsSpace_class (c : Char) (h : pyIsSpace c = true) :
    isStateClassChar c = true := by
  unfold isStateClassChar
  rw [h]
  simp

theorem not_class_not_upper (c : Char) (h : isStateClassChar c = false) :
    isUpperAZ c = false := by
  unfold isStateClassChar at h
  rw [Bool.or_eq_false_iff, Bool.or_eq_false_iff] at h
  exact h.1.1

theorem altGroup_none_of_comma (u : List Char) (h : ',' ∈ u) :
    altGroup u = none := by
  have h1 : u.all isUpperAZ = false := by
    cases hall : u.all isUpperAZ with
    | false => rfl
    | true => exact absurd (List.all_eq_true.mp hall _ h) (by decide)
  have h2 : u.all isStateClassChar = false := by
    cases hall : u.all isStateClassChar with
    | false => rfl
    | true => exact absurd (List.all_eq_true.mp hall _ h) (by decide)
  unfold altGroup
  rw [h1, h2]
  simp

theorem wsBacktrack_none_of_comma :
    ∀ (k : Nat) (t : List Char), ',' ∈ t → wsBacktrack k t = none := by
  intro k
  induction k with
  | zero => intro t ht; exact altGroup_none_of_comma t ht
  | succ j ih =>
    intro t ht
    unfold wsBacktrack
    cases hc : ((t.take (j + 1)).all pyIsSpace) with
    | false => simpa using ih t ht
    | true =>
      have hmem : ',' ∈ t.drop (j + 1) := by
        have hsplit : ',' ∈ t.take (j + 1) ++ t.drop (j + 1) := by
          rw [List.take_append_drop]
          exact ht
        rcases List.mem_append.mp hsplit with h1 | h1
        · exact absurd (List.all_eq_true.mp hc _ h1) (by decide)
        · exact h1
      rw [altGroup_none_of_comma _ hmem]
      simpa using ih t ht

theorem matchFromComma_none_of_comma (t : List Char) (h : ',' ∈ t) :
    matchFromComma t = none :=
  wsBacktrack_none_of_comma t.length t h

theorem comma_mem_of_afterLastComma_some (t : List Char)
    (h : (afterLastComma t).isSome = true) : ',' ∈ t := by
  induction t with
  | nil => simp [afterLastComma] at h
  | cons c rest ih =>
    unfold afterLastComma at h
    cases ha : afterLastComma rest with
    | some r =>
      exact List.mem_cons_of_mem c (ih (by rw [ha]; rfl))
    | none =>
      rw [ha] at h
      by_cases hc : c = ','
      · rw [hc]
        exact List.mem_cons_self _ _
      · rw [if_neg hc] at h
        simp at h

theorem comma_not_mem_of_afterLastComma_none (t : List Char)
    (h : afterLastComma t = none) : ',' ∉ t := by
  induction t with
  | nil => simp
  | cons c rest ih =>
    unfold afterLastComma at h
    cases ha : afterLastComma rest with
    | some r => rw [ha] at h; simp at h
    | none =>
      rw [ha] at h
      by_cases hc : c = ','
      · rw [if_pos hc] at h; simp at h
      · intro hmem
        rcases List.mem_cons.mp hmem with h1 | h1
        · exact hc h1.symm
        · exact (ih ha) h1

theorem reSearch_none_of_no_comma (t : List Char) (h : ',' ∉ t) :
    reSearchComma t = none := by
  induction t with
  | nil => rfl
  | cons c rest ih =>
    unfold reSearchComma
    have hc : ¬ c = ',' := by
      intro hh
      exact h (by rw [hh]; exact List.mem_cons_self _ _)
    rw [if_neg hc]
    exact ih (fun hm => h (List.mem_cons_of_mem c hm))

/-- The leftmost-search semantics of `re.search` on this pattern coincide
with matching at the last comma: a complete match cannot contain a later
comma, so earlier commas always fail. -/
theorem reSearch_eq_afterLast (s : List Char) :
    reSearchComma s = (afterLastComma s).bind matchFromComma := by
  induction s with
  | nil => rfl
  | cons c rest ih =>
    unfold reSearchComma afterLastComma
    cases ha : afterLastComma rest with
    | some r =>
      have hrest : ',' ∈ rest :=
        comma_mem_of_afterLastComma_some rest (by rw [ha]; rfl)
      by_cases hc : c = ','
      · rw [if_pos hc, matchFromComma_none_of_comma rest hrest]
        rw [ha] at ih
        simpa using ih
      · rw [if_neg hc]
        rw [ha] at ih
        exact ih
    | none =>
      have hrest : ',' ∉ rest := comma_not_mem_of_afterLastComma_none rest ha
      by_cases hc : c = ','
      · rw [if_pos hc, if_pos hc]
        cases hm : matchFromComma rest with
        | some g => simp [hm]
        | none => simp [reSearch_none_of_no_comma rest hrest, hm]
      · rw [if_neg hc, if_neg hc, ih, ha]

theorem leadingWs_le_length (t : List Char) : leadingWs t ≤ t.length := by
  induction t with
  | nil => exact Nat.le_refl 0
  | cons c rest ih =>
    unfold leadingWs
    cases h : pyIsSpace c with
    | true => simpa using Nat.succ_le_succ ih
    | false => simp

theorem wsBacktrack_succ (j : Nat) (t : List Char) :
    wsBacktrack (j + 1) t =
      if (t.take (j + 1)).all pyIsSpace then
        match altGroup (t.drop (j + 1)) with
        | some g => some g
        | none => wsBacktrack j t
      else wsBacktrack j t := rfl

theorem take_all_space_iff (t : List Char) : ∀ j : Nat,
    ((t.take j).all pyIsSpace = true) ↔ min j t.length ≤ leadingWs t := by
  induction t with
  | nil => intro j; simp [leadingWs]
  | cons c rest ih =>
    intro j
    cases j with
    | zero => simp
    | succ j' =>
      rw [List.take_succ_cons, List.all_cons, List.length_cons,
        Nat.succ_min_succ]
      have hlw : leadingWs (c :: rest) =
          if pyIsSpace c then leadingWs rest + 1 else 0 := rfl
      cases hc : pyIsSpace c with
      | true =>
        rw [hlw, hc, if_pos rfl, Bool.true_and, ih j']
        omega
      | false =>
        rw [hlw, hc, if_neg (by simp), Bool.false_and]
        exact iff_of_false (by simp) (by omega)

theorem wsBacktrack_ge (t : List Char) : ∀ k : Nat, leadingWs t ≤ k →
    k ≤ t.length → wsBacktrack k t = wsBacktrack (leadingWs t) t := by
  intro k
  induction k with
  | zero =>
    intro h1 _
    rw [Nat.le_zero.mp h1]
  | succ j ih =>
    intro h1 h2
    by_cases he : leadingWs t = j + 1
    · rw [he]
    · have hlt : leadingWs t ≤ j := by omega
      have hfalse : ((t.take (j + 1)).all pyIsSpace) = false := by
        cases htk : ((t.take (j + 1)).all pyIsSpace) with
        | false => rfl
        | true =>
          have hmin := (take_all_space_iff t (j + 1)).mp htk
          rw [Nat.min_eq_left h2] at hmin
          omega
      rw [wsBacktrack_succ, hfalse]
      simpa using ih hlt (by omega)

theorem wsBacktrack_hit (t : List Char) (j : Nat)
    (hws : (t.take j).all pyIsSpace = true) (g : List Char)
    (hg : altGroup (t.drop j) = some g) : wsBacktrack j t = some g := by
  cases j with
  | zero =>
    rw [List.drop_zero] at hg
    exact hg
  | succ j' =>
    rw [wsBacktrack_succ, hws, hg]
    rfl

theorem wsBacktrack_none_all (t : List Char) : ∀ j : Nat,
    (∀ i, i ≤ j → altGroup (t.drop i) = none) → wsBacktrack j t = none := by
  intro j
  induction j with
  | zero =>
    intro h
    have h0 := h 0 (Nat.le_refl 0)
    rw [List.drop_zero] at h0
    exact h0
  | succ j' ih =>
    intro h
    rw [wsBacktrack_succ, h (j' + 1) (Nat.le_refl _)]
    cases hc : ((t.take (j' + 1)).all pyIsSpace) with
    | false => simpa using ih (fun i hi => h i (by omega))
    | true => simpa using ih (fun i hi => h i (by omega))

/-- The greedy-with-backtracking `\s*` followed by the anchored alternation
computes exactly the case analysis of `amendedRegionCore`: skip the maximal
whitespace prefix and run the alternation, falling back to one fewer skipped
whitespace character only when the remainder is empty. -/
theorem wsBacktrack_at_m (t : List Char) :
    wsBacktrack (leadingWs t) t = amendedRegionCore t := by
  unfold amendedRegionCore
  dsimp only
  cases hm : leadingWs t with
  | zero =>
    simp only [List.drop_zero]
    cases ha : altGroup t with
    | some g =>
      dsimp only
      show altGroup t = some g
      exact ha
    | none =>
      dsimp only
      show altGroup t = if t.isEmpty && decide (1 ≤ 0) then
        some (t.drop (0 - 1)) else none
      rw [ha]
      simp
  | succ j =>
    have hle : j + 1 ≤ t.length := by
      have h := leadingWs_le_length t
      omega
    have hws : (t.take (j + 1)).all pyIsSpace = true := by
      rw [take_all_space_iff t (j + 1), hm]
      exact le_trans (Nat.min_le_left _ _) (Nat.le_refl _)
    rw [wsBacktrack_succ, hws]
    rw [if_pos rfl]
    cases ha : altGroup (t.drop (j + 1)) with
    | some g => dsimp only
    | none =>
      dsimp only
      cases he : (t.drop (j + 1)).isEmpty with
      | true =>
        have hnil : t.drop (j + 1) = [] := List.isEmpty_iff.mp he
        have hlen : t.length = j + 1 := by
          have h1 := congrArg List.length hnil
          rw [List.length_drop] at h1
          simp at h1
          omega
        have hta : t.all pyIsSpace = true := by
          have h2 := (take_all_space_iff t t.length).mpr
            (by rw [Nat.min_self, hm, hlen])
          rwa [List.take_length] at h2
        have hdl : (t.drop j).length = 1 := by
          rw [List.length_drop]
          omega
        have hall : (t.drop j).all isStateClassChar = true := by
          refine List.all_eq_true.mpr (fun c hc => ?_)
          exact pyIsSpace_class c
            (List.all_eq_true.mp hta c (List.mem_of_mem_drop hc))
        have hne : (t.drop j).isEmpty = false := by
          cases h3 : (t.drop j).isEmpty with
          | false => rfl
          | true =>
            have h4 := congrArg List.length (List.isEmpty_iff.mp h3)
            rw [hdl] at h4
            simp at h4
        have hlen2 : ((t.drop j).length == 2) = false := by
          rw [hdl]
          rfl
        have hg2 : altGroup (t.drop j) = some (t.drop j) := by
          unfold altGroup
          rw [hlen2, hne, hall]
          simp
        have hws2 : (t.take j).all pyIsSpace = true := by
          rw [take_all_space_iff t j, hm]
          exact le_trans (Nat.min_le_left _ _) (by omega)
        rw [wsBacktrack_hit t j hws2 (t.drop j) hg2]
        have hd : decide (1 ≤ j + 1) = true := decide_eq_true (by omega)
        rw [hd]
        simp
      | false =>
        have hbad : ∃ c, c ∈ t.drop (j + 1) ∧ isStateClassChar c = false := by
          cases hcls : (t.drop (j + 1)).all isStateClassChar with
          | false =>
            obtain ⟨c, hc1, hc2⟩ := List.all_eq_false.mp hcls
            refine ⟨c, hc1, ?_⟩
            cases h4 : isStateClassChar c with
            | false => rfl
            | true => exact absurd h4 hc2
          | true =>
            exfalso
            unfold altGroup at ha
            cases h4 : ((t.drop (j + 1)).length == 2 &&
                (t.drop (j + 1)).all isUpperAZ) with
            | true => rw [h4] at ha; simp at ha
            | false => rw [h4, he, hcls] at ha; simp at ha
        obtain ⟨cbad, hcmem, hcbad⟩ := hbad
        have hnone : ∀ i, i ≤ j → altGroup (t.drop i) = none := by
          intro i hi
          have hmem2 : cbad ∈ t.drop i := by
            have hdd : t.drop (j + 1) = (t.drop i).drop (j + 1 - i) := by
              rw [List.drop_drop]
              congr 1
              omega
            rw [hdd] at hcmem
            exact List.mem_of_mem_drop hcmem
          have h5 : (t.drop i).all isUpperAZ = false := by
            cases h6 : (t.drop i).all isUpperAZ with
            | false => rfl
            | true =>
              have h7 := List.all_eq_true.mp h6 cbad hmem2
              rw [not_class_not_upper cbad hcbad] at h7
              exact absurd h7 (by simp)
          have h8 : (t.drop i).all isStateClassChar = false := by
            cases h9 : (t.drop i).all isStateClassChar with
            | false => rfl
            | true =>
              have h10 := List.all_eq_true.mp h9 cbad hmem2
              rw [hcbad] at h10
              exact absurd h10 (by simp)
          unfold altGroup
          rw [h5, h8]
          simp
        rw [wsBacktrack_none_all t j hnone]
        simp

/-- The whole match after a comma equals the `amendedRegionCore` case
analysis. -/
theorem matchFromComma_eq_core (t : List Char) :
    matchFromComma t = amendedRegionCore t := by
  unfold matchFromComma
  rw [wsBacktrack_ge t t.length (leadingWs_le_length t) (Nat.le_refl _),
    wsBacktrack_at_m]

/-- C3 counterexample: the claim says the derived region is always the
trailing comma-delimited token trimmed of whitespace.  The code's regex
disagrees on two concrete inputs: for `"Austin, 78701"` the trailing token
is `"78701"` but the code yields `"Unknown"` (digits never match the capture
group), and for `"Austin, TX "` the trimmed token is `"TX"` but the code
yields `"TX "` (trailing whitespace is captured, not trimmed). -/
theorem c3_region_counterexample :
    claimRegionSpec (some "Austin, 78701") = "78701"
    ∧ regionCompanies (some "Austin, 78701") = "Unknown"
    ∧ ("Unknown" : String) ≠ "78701"
    ∧ claimRegionSpec (some "Austin, TX ") = "TX"
    ∧ regionCompanies (some "Austin, TX ") = "TX "
    ∧ ("TX " : String) ≠ "TX" :=
  ⟨by decide, by decide, by decide, by decide, by decide, by decide⟩

/-- C3 amended: for every location, the derived region is computed from the
text after the last comma as follows — skip the leading whitespace; if the
remainder is exactly two uppercase ASCII letters, or is nonempty and
consists only of ASCII letters and whitespace, the region is that remainder
verbatim (so trailing whitespace is kept); if the remainder is empty but at
least one whitespace character was skipped, the region is the last
whitespace character; in every other case — no comma, missing location, or a
remainder containing any other character (digits, punctuation) — the region
is `"Unknown"`.  The claim's examples `region "Austin, TX" = "TX"` and
`region "Remote" = "Unknown"` continue to hold. -/
theorem c3_region_amended :
    (∀ loc : Option String, regionCompanies loc = amendedRegion loc)
    ∧ regionCompanies (some "Austin, TX") = "TX"
    ∧ regionCompanies (some "Remote") = "Unknown" := by
  refine ⟨fun loc => ?_, by decide, by decide⟩
  cases loc with
  | none => rfl
  | some s =>
    have hA : amendedRegion (some s) =
        match afterLastComma s.toList with
        | none => "Unknown"
        | some t =>
          match amendedRegionCore t with
          | some g => String.mk g
          | none => "Unknown" := rfl
    show ((reSearchComma s.toList).map (fun g => String.mk g)).getD "Unknown" =
      amendedRegion (some s)
    rw [hA, reSearch_eq_afterLast]
    cases ha : afterLastComma s.toList with
    | none => rfl
    | some t =>
      show ((matchFromComma t).map (fun g => String.mk g)).getD "Unknown" =
        match amendedRegionCore t with
        | some g => String.mk g
        | none => "Unknown"
      rw [matchFromComma_eq_core]
      cases hc : amendedRegionCore t with
      | none => rfl
      | some g => rfl

end ClayAnalysis
